import Mathlib

/-!
Verification of the TouristApp_BC3413 repository's cuisine-preference
filter pipeline, route planner and join layer, shallowly embedded in Lean.

Sources embedded:
* `src/test.py` — the case-insensitive `CuisineFeatureHandler.filter_by_cuisine_preferences`
  (the coherent variant the specification's section 4.1 describes);
* `src/feature_cuisine.py` — the drifted case-sensitive duplicate of the same
  method, plus `load_data`'s left merge of menu items with stalls;
* `src/location.py` — `calculate_best_route` (greedy nearest-neighbour with
  pandas `idxmin`, i.e. first index attaining the minimum) and the interactive
  reorder step of the itinerary edit loop;
* `src/unnamed/part_000` — the two inner merges building `full_data`.

Machine floats, pandas dataframes and the geopy geodesic are embedded as:
rationals for distances (the geodesic is an external collaborator and enters
as an explicit distance-function parameter), lists of records for dataframes,
`Option String` for columns that may hold NaN.
-/

namespace TouristApp

/-- Embedding of Python's `str.lower()` on the ASCII data this app holds:
lower each character.  (Defined over the string's character list rather than
through `String.map` so that concrete instances reduce inside the kernel.) -/
def lowerStr (s : String) : String := ⟨s.data.map Char.toLower⟩

/-- Case-sensitive substring containment on character lists: `subAux needle hay`
is true iff `needle` occurs contiguously inside `hay`. -/
def subAux (needle : List Char) : List Char → Bool
  | [] => needle.isEmpty
  | c :: rest => needle.isPrefixOf (c :: rest) || subAux needle rest

/-- The literal reading of pandas `Series.str.contains(pat, case=False)`:
case-insensitive substring containment.  The source's `regex=True` default is
embedded separately as `str_contains_ci` below; on patterns without regex
metacharacters — the only form the allergen data and examples use — the two
readings provably coincide (`allergenFilterRe_literal`). -/
def containsSubCI (hay pat : String) : Bool :=
  subAux (lowerStr pat).data (lowerStr hay).data

/-- Embedding of the `CuisinePreferences` dataclass (identical in
`src/feature_cuisine.py` and `src/test.py`); `__post_init__` turns `None`
fields into empty lists, so every field is simply a list here. -/
structure CuisinePreferences where
  cuisines : List String
  dietary_restrictions : List String
  allergens_to_avoid : List String

/-- One row of the merged menu-items × stalls dataframe, restricted to the
columns the filter pipeline reads.  String columns may hold NaN after the
left merge, embedded as `Option String` with `none` for NaN. -/
structure MenuRecord where
  cuisine_type : Option String
  vegetarian : Option String
  halal : Option String
  allergens : Option String
  is_available : Bool
deriving DecidableEq, Repr

/-- The "matches the avoided allergen" row test of
`~df['allergens'].str.contains(allergen, case=False, na=False)` under the
literal reading of the pattern (`na=False` makes a NaN allergen field never
match); it agrees with the source's regex reading — `allergenMatchesRe`
below — exactly on metacharacter-free tokens. -/
def allergenMatches (allergen : String) (r : MenuRecord) : Bool :=
  match r.allergens with
  | some s => containsSubCI s allergen
  | none => false

/-- The allergen block, identical in `src/feature_cuisine.py` lines 121-124 and
`src/test.py`: when the avoid-list is non-empty, one `df = df[~contains]`
filter per avoided allergen, folded left over the list. -/
def allergenStage (avoid : List String) (df : List MenuRecord) : List MenuRecord :=
  if avoid.isEmpty then df
  else avoid.foldl (fun acc a => acc.filter (fun r => !(allergenMatches a r))) df

/-- The unconditional final block `df = df[df['is_available'] == True]`,
identical in both variants. -/
def availStage (df : List MenuRecord) : List MenuRecord :=
  df.filter (fun r => r.is_available)

namespace TestPy

/-- Row test of the cuisine block of `src/test.py`:
`df['cuisine_type'].str.lower().isin(cuisines_lower)`; a NaN cuisine is not a
member of the lowered preference list. -/
def cuisinePred (cuisines_lower : List String) (r : MenuRecord) : Bool :=
  match r.cuisine_type with
  | some c => cuisines_lower.contains (lowerStr c)
  | none => false

/-- Cuisine block of `src/test.py`: skipped when `preferences.cuisines` is
empty (falsy), otherwise lower both sides and keep members. -/
def cuisineStage (p : CuisinePreferences) (df : List MenuRecord) : List MenuRecord :=
  if p.cuisines.isEmpty then df
  else df.filter (cuisinePred (p.cuisines.map lowerStr))

/-- Row test `df['vegetarian'].str.lower() == 'yes'` of `src/test.py`;
NaN lowers to NaN and never equals "yes". -/
def vegPred (r : MenuRecord) : Bool :=
  match r.vegetarian with
  | some v => lowerStr v == "yes"
  | none => false

/-- Vegetarian block of `src/test.py`: applied iff `'vegetarian'` is in the
lower-cased dietary restrictions. -/
def vegStage (p : CuisinePreferences) (df : List MenuRecord) : List MenuRecord :=
  if (p.dietary_restrictions.map lowerStr).contains "vegetarian" then
    df.filter vegPred
  else df

/-- Row test `df['halal'].str.lower() == 'yes'` of `src/test.py`. -/
def halalPred (r : MenuRecord) : Bool :=
  match r.halal with
  | some v => lowerStr v == "yes"
  | none => false

/-- Halal block of `src/test.py`. -/
def halalStage (p : CuisinePreferences) (df : List MenuRecord) : List MenuRecord :=
  if (p.dietary_restrictions.map lowerStr).contains "halal" then
    df.filter halalPred
  else df

/-- Embedding of `CuisineFeatureHandler.filter_by_cuisine_preferences` from
`src/test.py`: cuisine, vegetarian, halal, allergen, then availability,
each block operating on the previous block's output. -/
def filter_by_cuisine_preferences (p : CuisinePreferences) (df : List MenuRecord) :
    List MenuRecord :=
  availStage (allergenStage p.allergens_to_avoid (halalStage p (vegStage p (cuisineStage p df))))

/-- The single row-predicate the `src/test.py` pipeline amounts to. -/
def keepPred (p : CuisinePreferences) (r : MenuRecord) : Bool :=
  r.is_available &&
    ((p.allergens_to_avoid.all (fun a => !(allergenMatches a r))) &&
      ((!((p.dietary_restrictions.map lowerStr).contains "halal") || halalPred r) &&
        ((!((p.dietary_restrictions.map lowerStr).contains "vegetarian") || vegPred r) &&
          (p.cuisines.isEmpty || cuisinePred (p.cuisines.map lowerStr) r))))

end TestPy

namespace FeatureCuisine

/-- Row test of the cuisine block of `src/feature_cuisine.py`:
`df['cuisine_type'].isin(preferences.cuisines)` — exact, case-sensitive
membership; a NaN cuisine is not a member. -/
def cuisinePred (cuisines : List String) (r : MenuRecord) : Bool :=
  match r.cuisine_type with
  | some c => cuisines.contains c
  | none => false

/-- Cuisine block of `src/feature_cuisine.py` lines 106-108. -/
def cuisineStage (p : CuisinePreferences) (df : List MenuRecord) : List MenuRecord :=
  if p.cuisines.isEmpty then df
  else df.filter (cuisinePred p.cuisines)

/-- Row test `df['vegetarian'] == 'Yes'` of `src/feature_cuisine.py`:
exact string equality with "Yes"; NaN never equals. -/
def vegPred (r : MenuRecord) : Bool := r.vegetarian == some "Yes"

/-- Vegetarian block of `src/feature_cuisine.py`: applied iff the literal
string `'vegetarian'` is in the dietary restrictions. -/
def vegStage (p : CuisinePreferences) (df : List MenuRecord) : List MenuRecord :=
  if p.dietary_restrictions.contains "vegetarian" then df.filter vegPred else df

/-- Row test `df['halal'] == 'Yes'` of `src/feature_cuisine.py`. -/
def halalPred (r : MenuRecord) : Bool := r.halal == some "Yes"

/-- Halal block of `src/feature_cuisine.py`. -/
def halalStage (p : CuisinePreferences) (df : List MenuRecord) : List MenuRecord :=
  if p.dietary_restrictions.contains "halal" then df.filter halalPred else df

/-- Embedding of `CuisineFeatureHandler.filter_by_cuisine_preferences` from
`src/feature_cuisine.py` lines 88-130 (the case-sensitive duplicate). -/
def filter_by_cuisine_preferences (p : CuisinePreferences) (df : List MenuRecord) :
    List MenuRecord :=
  availStage (allergenStage p.allergens_to_avoid (halalStage p (vegStage p (cuisineStage p df))))

/-- The single row-predicate the `src/feature_cuisine.py` pipeline amounts to. -/
def keepPred (p : CuisinePreferences) (r : MenuRecord) : Bool :=
  r.is_available &&
    ((p.allergens_to_avoid.all (fun a => !(allergenMatches a r))) &&
      ((!(p.dietary_restrictions.contains "halal") || halalPred r) &&
        ((!(p.dietary_restrictions.contains "vegetarian") || vegPred r) &&
          (p.cuisines.isEmpty || cuisinePred p.cuisines r))))

end FeatureCuisine

/-! ### Route planner (`src/location.py`) -/

/-- A (latitude, longitude) pair.  Machine floats are embedded as rationals. -/
abbrev Coord := ℚ × ℚ

/-- Minimum of a list of distances, computed the way a fold over the list
does (`0` for the empty list, which never occurs in use). -/
def listMin : List ℚ → ℚ
  | [] => 0
  | d :: rest => rest.foldl min d

/-- Embedding of pandas `Series.idxmin` on a positionally indexed series:
the first position whose value attains the minimum. -/
def idxmin (ds : List ℚ) : ℕ := ds.findIdx (fun d => d == listMin ds)

/-- The loop body of `calculate_best_route` in `src/location.py`: while
`remaining` is non-empty, compute the distances from the current location to
every remaining row, take `idxmin` (first position attaining the minimum,
pandas tie-break), append that row to the route, move there, drop it from
`remaining`.  `dist` is the external `geopy.distance.geodesic(...).km`
collaborator; `coordOf` reads `(row['latitude_hc'], row['longitude_hc'])`.
The loop removes exactly one row per iteration, so it is embedded with a fuel
argument that `calculate_best_route` sets to the number of rows. -/
def routeAux (dist : Coord → Coord → ℚ) (coordOf : α → Coord) :
    ℕ → Coord → List α → List α
  | 0, _, _ => []
  | _, _, [] => []
  | fuel + 1, cur, r0 :: rest =>
    let rem := r0 :: rest
    let i := idxmin (rem.map (fun r => dist cur (coordOf r)))
    let nearest := rem.getD i r0
    nearest :: routeAux dist coordOf fuel (coordOf nearest) (rem.eraseIdx i)

/-- Embedding of `calculate_best_route(start_coords, hcs_df)` from
`src/location.py`. -/
def calculate_best_route (dist : Coord → Coord → ℚ) (coordOf : α → Coord)
    (start_coords : Coord) (hcs : List α) : List α :=
  routeAux dist coordOf hcs.length start_coords hcs

/-- The greedy step of the specification, in the spec's words: "find r in
remaining minimizing great-circle-distance(currentLocation, r.coordinate);
tie-break: if multiple r achieve the minimum distance, select the one
encountered first in remaining's iteration order". -/
def specPick (d : α → ℚ) (rem : List α) : Option α :=
  rem.find? (fun r => rem.all (fun r2 => decide (d r ≤ d r2)))

/-- The specification's greedy nearest-neighbour construction ("while
remaining is non-empty: ... append r to route; currentLocation := r.coordinate;
remove r from remaining"), with the same fuel discipline as `routeAux`. -/
def greedySpec [DecidableEq α] (dist : Coord → Coord → ℚ) (coordOf : α → Coord) :
    ℕ → Coord → List α → List α
  | 0, _, _ => []
  | fuel + 1, cur, rem =>
    match specPick (fun r => dist cur (coordOf r)) rem with
    | none => []
    | some r => r :: greedySpec dist coordOf fuel (coordOf r) (rem.erase r)

/-- A concrete distance table used to instantiate the external geodesic
collaborator in closed-form checks.  On the pairs that occur in the spec's
route example it orders distances exactly as the geodesic does along the
equator (distance grows with longitude separation); it is a lookup table of
literal rationals because only the ordering matters to the planner. -/
def witnessDist : Coord → Coord → ℚ := fun a b =>
  if a = (0, 0) ∧ b = (0, 1) then 1
  else if a = (0, 0) ∧ b = (0, 3) then 3
  else if a = (0, 0) ∧ b = (0, 5) then 5
  else if a = (0, 1) ∧ b = (0, 3) then 2
  else if a = (0, 1) ∧ b = (0, 5) then 4
  else if a = (0, 3) ∧ b = (0, 5) then 2
  else 0

/-! ### Itinerary reorder step (`src/location.py` edit loop) -/

/-- Python list indexing `l[i]` with an `int` index: non-negative indices from
the front, negative indices from the back, `None` (IndexError) when out of
range on either side. -/
def pyGet (l : List α) (i : ℤ) : Option α :=
  if 0 ≤ i then l.get? i.toNat
  else if -i ≤ (l.length : ℤ) then l.get? (l.length - (-i).toNat) else none

/-- Effect of running a Python list comprehension whose body may raise: the
list of results when every element evaluates, `none` as soon as one raises.
(This is `mapM` for `Option`, written recursively.) -/
def traverseOpt (f : α → Option β) : List α → Option (List β)
  | [] => some []
  | x :: xs =>
    match f x, traverseOpt f xs with
    | some y, some ys => some (y :: ys)
    | _, _ => none

/-- One pass of the reorder branch of the edit loop in `src/location.py`:
subtract 1 from each entered number, reject (leaving the itinerary alone) when
the count differs from the itinerary length, otherwise rebuild
`[itinerary[i] for i in indices]`; an IndexError inside the rebuild is caught
by the `except` and also leaves the itinerary alone (`none` here). -/
def reorderStep (itin : List α) (order : List ℤ) : Option (List α) :=
  let indices := order.map (fun x => x - 1)
  if indices.length = itin.length then traverseOpt (pyGet itin) indices else none

/-- The state update the edit loop performs on the itinerary: the rebuilt list
on success, the unchanged itinerary on any failure. -/
def editStep (itin : List α) (order : List ℤ) : List α :=
  (reorderStep itin order).getD itin

/-! ### Join layer (`src/feature_cuisine.py` `load_data`, `src/unnamed/part_000`) -/

/-- A row of `menu_items.csv`, restricted to the join key and a payload. -/
structure MenuItem where
  stall_id : ℕ
  item_name : String
deriving DecidableEq, Repr

/-- A row of `stalls.csv`, restricted to its keys and a payload. -/
structure Stall where
  stall_id : ℕ
  hawker_center_id : ℕ
  stall_name : String
deriving DecidableEq, Repr

/-- A row of `hawker_centers.csv`, restricted to its key and a payload. -/
structure HawkerCenter where
  center_id : ℕ
  center_name : String
deriving DecidableEq, Repr

/-- pandas `pd.merge(menu_items, stalls, on='stall_id', how='inner')` from
`src/unnamed/part_000`: for each left row in order, one output row per
matching right row (in right order); left rows without a match disappear. -/
def menu_stalls (menu : List MenuItem) (stalls : List Stall) : List (MenuItem × Stall) :=
  menu.flatMap (fun m =>
    (stalls.filter (fun s => s.stall_id == m.stall_id)).map (fun s => (m, s)))

/-- pandas `pd.merge(menu_stalls, hawker_centers, left_on='hawker_center_id',
right_on='center_id', how='inner')` from `src/unnamed/part_000`. -/
def full_data (menu : List MenuItem) (stalls : List Stall) (centers : List HawkerCenter) :
    List (MenuItem × Stall × HawkerCenter) :=
  (menu_stalls menu stalls).flatMap (fun p =>
    (centers.filter (fun c => c.center_id == p.2.hawker_center_id)).map
      (fun c => (p.1, p.2, c)))

/-- pandas `self.menu_items_df.merge(self.stalls_df, on='stall_id', how='left')`
from `CuisineFeatureHandler.load_data` in `src/feature_cuisine.py`: every left
row is retained; a left row with no matching stall gets one output row whose
stall side is NaN (`none`). -/
def merged_df (menu : List MenuItem) (stalls : List Stall) : List (MenuItem × Option Stall) :=
  menu.flatMap (fun m =>
    let ms := stalls.filter (fun s => s.stall_id == m.stall_id)
    if ms.isEmpty then [(m, none)] else ms.map (fun s => (m, some s)))

/-- Modelled from the spec: section 4.4's `joinMenuStallCenter` in `LeftOuter`
mode.  The source realises the left-outer mode only for the menu-items × stalls
leg (`load_data`); the center leg in left-outer mode is absent from `src/`, so
it is modelled here from the spec's words: "`LeftOuter` mode retains the menu
item with null stall/center fields". -/
def joinMenuStallCenterLeft (menu : List MenuItem) (stalls : List Stall)
    (centers : List HawkerCenter) :
    List (MenuItem × Option Stall × Option HawkerCenter) :=
  (merged_df menu stalls).flatMap (fun p =>
    match p.2 with
    | none => [(p.1, none, none)]
    | some s =>
      let cs := centers.filter (fun c => c.center_id == s.hawker_center_id)
      if cs.isEmpty then [(p.1, some s, none)]
      else cs.map (fun c => (p.1, some s, some c)))

/-! ### Regex semantics of the allergen filter

pandas `Series.str.contains(pat, case=False, na=False)` compiles `pat` as a
regular expression (`regex=True` is the default).  The definitions below embed
that behaviour over the subset of Python regex patterns the embedding models:
literal characters and the `.` wildcard.  A pattern using any other special
character is outside the modeled subset (`none`): it either carries different
regex semantics or raises `re.error` (e.g. `"("`).  On metacharacter-free
patterns this regex reading provably coincides with the literal substring
reading `containsSubCI` used by the pipeline embeddings. -/

/-- Characters that are special in Python regular expressions; every other
character matches itself literally inside a pattern. -/
def pyReSpecial : List Char :=
  ['.', '^', '$', '*', '+', '?', '\x7b', '\x7d', '[', ']', '\\', '|', '(', ')']

/-- A pattern character with no special regex meaning. -/
def isLiteralChar (c : Char) : Bool := !(pyReSpecial.contains c)

/-- Token of the modeled subset of Python regex patterns: a literal character
(stored lower-cased, embedding `re.IGNORECASE` on the app's ASCII data) or
the `.` wildcard. -/
inductive RTok where
  | lit : Char → RTok
  | dot : RTok
deriving DecidableEq

/-- Parse a pattern over the modeled subset: `.` becomes the wildcard, a
non-special character a lowered literal; any other special character leaves
the modeled subset. -/
def parseSimplePat (pat : String) : Option (List RTok) :=
  traverseOpt
    (fun c => if c = '.' then some RTok.dot
      else if isLiteralChar c then some (RTok.lit c.toLower) else none)
    pat.data

/-- One token against one text character, case-insensitively; the wildcard
matches anything but a newline (Python's default, no DOTALL). -/
def rtokMatchesChar : RTok → Char → Bool
  | RTok.lit c, x => c == x.toLower
  | RTok.dot, x => x != '\n'

/-- The token list matches a prefix of the text. -/
def rtoksMatchPrefix : List RTok → List Char → Bool
  | [], _ => true
  | _ :: _, [] => false
  | t :: ts, x :: xs => rtokMatchesChar t x && rtoksMatchPrefix ts xs

/-- `re.search` over the modeled subset: the token list matches contiguously
somewhere in the text. -/
def reSearchAux (toks : List RTok) : List Char → Bool
  | [] => toks.isEmpty
  | x :: xs => rtoksMatchPrefix toks (x :: xs) || reSearchAux toks xs

/-- Embedding of pandas `Series.str.contains(pat, case=False, regex=True)`
over the modeled pattern subset; `none` for a pattern outside it. -/
def str_contains_ci (text pat : String) : Option Bool :=
  (parseSimplePat pat).map (fun toks => reSearchAux toks text.data)

/-- The allergen row test under the regex semantics; `na=False` keeps NaN
allergen fields unmatched. -/
def allergenMatchesRe (allergen : String) (r : MenuRecord) : Option Bool :=
  match r.allergens with
  | some s => str_contains_ci s allergen
  | none => some false

/-- One `df = df[~df['allergens'].str.contains(a, case=False, na=False)]`
filter under the regex semantics; the pattern is compiled once per filter, so
a pattern outside the modeled subset makes the whole filter `none`. -/
def allergenFilterRe (a : String) (l : List MenuRecord) : Option (List MenuRecord) :=
  (parseSimplePat a).map (fun toks =>
    l.filter (fun r =>
      !(match r.allergens with
        | some s => reSearchAux toks s.data
        | none => false)))

/-- The allergen block of `filter_by_cuisine_preferences` under the regex
semantics of `str.contains`. -/
def allergenStageRe (avoid : List String) (df : List MenuRecord) :
    Option (List MenuRecord) :=
  if avoid.isEmpty then some df
  else avoid.foldl (fun acc a => acc.bind (allergenFilterRe a)) (some df)

/-! ### Route-planner lemmas -/

theorem foldl_min_mem (d : ℚ) (rest : List ℚ) : rest.foldl min d ∈ d :: rest := by
  induction rest generalizing d with
  | nil => simp
  | cons e rest ih =>
    rw [List.foldl_cons]
    rcases List.mem_cons.mp (ih (min d e)) with h1 | h1
    · rcases min_choice d e with h2 | h2
      · rw [h1, h2]; exact List.mem_cons_self _ _
      · rw [h1, h2]; exact List.mem_cons.mpr (Or.inr (List.mem_cons_self _ _))
    · exact List.mem_cons.mpr (Or.inr (List.mem_cons.mpr (Or.inr h1)))

theorem foldl_min_le (d : ℚ) (rest : List ℚ) : ∀ x ∈ d :: rest, rest.foldl min d ≤ x := by
  induction rest generalizing d with
  | nil => intro x hx; simp at hx; simp [hx]
  | cons e rest ih =>
    intro x hx
    rcases List.mem_cons.mp hx with h1 | h1
    · calc rest.foldl min (min d e) ≤ min d e := ih (min d e) _ (List.mem_cons_self _ _)
        _ ≤ d := min_le_left _ _
        _ = x := h1.symm
    · rcases List.mem_cons.mp h1 with h2 | h2
      · calc rest.foldl min (min d e) ≤ min d e := ih (min d e) _ (List.mem_cons_self _ _)
          _ ≤ e := min_le_right _ _
          _ = x := h2.symm
      · exact ih (min d e) x (List.mem_cons.mpr (Or.inr h2))

theorem listMin_mem {ds : List ℚ} (h : ds ≠ []) : listMin ds ∈ ds := by
  cases ds with
  | nil => exact absurd rfl h
  | cons d rest => exact foldl_min_mem d rest

theorem listMin_le {ds : List ℚ} : ∀ x ∈ ds, listMin ds ≤ x := by
  cases ds with
  | nil => intro x hx; simp at hx
  | cons d rest => exact foldl_min_le d rest

theorem idxmin_lt_length {ds : List ℚ} (h : ds ≠ []) : idxmin ds < ds.length :=
  List.findIdx_lt_length_of_exists ⟨listMin ds, listMin_mem h, beq_self_eq_true _⟩

theorem idxmin_attains {ds : List ℚ} (h : ds ≠ []) (him : idxmin ds < ds.length) :
    ds[idxmin ds] = listMin ds := by
  have h2 := List.findIdx_getElem (p := fun d => d == listMin ds) (w := him)
  exact eq_of_beq h2

theorem idxmin_first {ds : List ℚ} (j : ℕ) (hj : j < idxmin ds) (hjl : j < ds.length) :
    listMin ds < ds[j] := by
  have hne : ds[j] ≠ listMin ds := by
    intro he
    have h3 := List.not_of_lt_findIdx (p := fun d => d == listMin ds) hj
    rw [he] at h3
    simp at h3
  exact lt_of_le_of_ne (listMin_le _ (ds.getElem_mem hjl)) (Ne.symm hne)

/-! ### Filter-pipeline lemmas -/

theorem foldl_filter (m : String → MenuRecord → Bool) (as : List String)
    (df : List MenuRecord) :
    as.foldl (fun acc a => acc.filter (fun r => !(m a r))) df =
      df.filter (fun r => as.all (fun a => !(m a r))) := by
  induction as generalizing df with
  | nil => simp
  | cons a as ih =>
    rw [List.foldl_cons, ih, List.filter_filter]
    exact List.filter_congr (fun r _ => by rw [List.all_cons, Bool.and_comm])

theorem allergenStage_eq (avoid : List String) (df : List MenuRecord) :
    allergenStage avoid df =
      df.filter (fun r => avoid.all (fun a => !(allergenMatches a r))) := by
  unfold allergenStage
  by_cases h : avoid.isEmpty
  · rw [if_pos h, List.isEmpty_iff.mp h]
    simp
  · rw [if_neg h, foldl_filter]

namespace TestPy

theorem cuisineStage_eq (p : CuisinePreferences) (df : List MenuRecord) :
    cuisineStage p df =
      df.filter (fun r => p.cuisines.isEmpty || cuisinePred (p.cuisines.map lowerStr) r) := by
  unfold cuisineStage
  by_cases h : p.cuisines.isEmpty
  · rw [if_pos h]
    simp [h]
  · rw [if_neg h]
    exact List.filter_congr (fun r _ => by simp [Bool.not_eq_true] at h; simp [h])

theorem vegStage_eq (p : CuisinePreferences) (df : List MenuRecord) :
    vegStage p df =
      df.filter
        (fun r => !((p.dietary_restrictions.map lowerStr).contains "vegetarian") || vegPred r) := by
  unfold vegStage
  by_cases h : (p.dietary_restrictions.map lowerStr).contains "vegetarian"
  · rw [if_pos h]
    exact List.filter_congr (fun r _ => by rw [h]; simp)
  · rw [if_neg h]
    have hb : (p.dietary_restrictions.map lowerStr).contains "vegetarian" = false := by
      simpa using h
    exact (List.filter_true df).symm.trans (List.filter_congr (fun r _ => by rw [hb]; simp))

theorem halalStage_eq (p : CuisinePreferences) (df : List MenuRecord) :
    halalStage p df =
      df.filter
        (fun r => !((p.dietary_restrictions.map lowerStr).contains "halal") || halalPred r) := by
  unfold halalStage
  by_cases h : (p.dietary_restrictions.map lowerStr).contains "halal"
  · rw [if_pos h]
    exact List.filter_congr (fun r _ => by rw [h]; simp)
  · rw [if_neg h]
    have hb : (p.dietary_restrictions.map lowerStr).contains "halal" = false := by
      simpa using h
    exact (List.filter_true df).symm.trans (List.filter_congr (fun r _ => by rw [hb]; simp))

theorem pipeline_eq (p : CuisinePreferences) (df : List MenuRecord) :
    filter_by_cuisine_preferences p df = df.filter (keepPred p) := by
  unfold filter_by_cuisine_preferences availStage
  rw [cuisineStage_eq, vegStage_eq, halalStage_eq, allergenStage_eq,
    List.filter_filter, List.filter_filter, List.filter_filter, List.filter_filter]
  exact List.filter_congr (fun r _ => by simp [keepPred, Bool.and_assoc])

end TestPy

namespace FeatureCuisine

theorem fc_cuisineStage_eq (p : CuisinePreferences) (df : List MenuRecord) :
    cuisineStage p df =
      df.filter (fun r => p.cuisines.isEmpty || cuisinePred p.cuisines r) := by
  unfold cuisineStage
  by_cases h : p.cuisines.isEmpty
  · rw [if_pos h]
    simp [h]
  · rw [if_neg h]
    exact List.filter_congr (fun r _ => by simp [Bool.not_eq_true] at h; simp [h])

theorem fc_vegStage_eq (p : CuisinePreferences) (df : List MenuRecord) :
    vegStage p df =
      df.filter (fun r => !(p.dietary_restrictions.contains "vegetarian") || vegPred r) := by
  unfold vegStage
  by_cases h : p.dietary_restrictions.contains "vegetarian"
  · rw [if_pos h]
    exact List.filter_congr (fun r _ => by rw [h]; simp)
  · rw [if_neg h]
    have hb : p.dietary_restrictions.contains "vegetarian" = false := by simpa using h
    exact (List.filter_true df).symm.trans (List.filter_congr (fun r _ => by rw [hb]; simp))

theorem fc_halalStage_eq (p : CuisinePreferences) (df : List MenuRecord) :
    halalStage p df =
      df.filter (fun r => !(p.dietary_restrictions.contains "halal") || halalPred r) := by
  unfold halalStage
  by_cases h : p.dietary_restrictions.contains "halal"
  · rw [if_pos h]
    exact List.filter_congr (fun r _ => by rw [h]; simp)
  · rw [if_neg h]
    have hb : p.dietary_restrictions.contains "halal" = false := by simpa using h
    exact (List.filter_true df).symm.trans (List.filter_congr (fun r _ => by rw [hb]; simp))

theorem fc_pipeline_eq (p : CuisinePreferences) (df : List MenuRecord) :
    filter_by_cuisine_preferences p df = df.filter (keepPred p) := by
  unfold filter_by_cuisine_preferences availStage
  rw [fc_cuisineStage_eq, fc_vegStage_eq, fc_halalStage_eq, allergenStage_eq,
    List.filter_filter, List.filter_filter, List.filter_filter, List.filter_filter]
  exact List.filter_congr (fun r _ => by simp [keepPred, Bool.and_assoc])

end FeatureCuisine

theorem filter_idem (f : MenuRecord → Bool) (l : List MenuRecord) :
    (l.filter f).filter f = l.filter f := by
  rw [List.filter_filter]
  exact List.filter_congr (fun r _ => Bool.and_self _)

/-! ### Claims about the filter pipeline -/

/-- C2: cuisine-stage filtering is case-insensitive — for every record set and
every non-empty cuisine preference list, a record survives the cuisine stage
iff the lower-cased cuisine type of the record equals the lower-casing of some
preferred cuisine; in particular preference ["chinese"] keeps a record whose
cuisine_type is "Chinese".  (Stated for the coherent `src/test.py` variant of
`filter_by_cuisine_preferences`, the one the specification describes.) -/
theorem claim_C2_cuisine_stage_case_insensitive
    (df : List MenuRecord) (p : CuisinePreferences) (h : p.cuisines ≠ []) :
    (∀ r : MenuRecord,
        r ∈ TestPy.cuisineStage p df ↔
          r ∈ df ∧ ∃ c, r.cuisine_type = some c ∧
            ∃ pc ∈ p.cuisines, lowerStr c = lowerStr pc) ∧
      TestPy.cuisineStage ⟨["chinese"], [], []⟩
          [⟨some "Chinese", none, none, none, true⟩] =
        [⟨some "Chinese", none, none, none, true⟩] := by
  constructor
  · intro r
    have hne : ¬ p.cuisines.isEmpty := by simpa using h
    rw [TestPy.cuisineStage_eq, List.mem_filter]
    apply and_congr_right
    intro _
    cases hc : r.cuisine_type with
    | none => simp [TestPy.cuisinePred, hc, hne]
    | some c =>
      simp only [TestPy.cuisinePred, hc, Bool.or_eq_true, List.isEmpty_eq_true]
      constructor
      · rintro (h1 | h1)
        · exact absurd h1 h
        · rcases List.mem_map.mp (List.elem_iff.mp h1) with ⟨pc, hpc, hlow⟩
          exact ⟨c, rfl, pc, hpc, hlow.symm⟩
      · rintro ⟨c2, hc2, pc, hpc, hlow⟩
        right
        rw [Option.some.injEq] at hc2
        subst hc2
        exact List.elem_iff.mpr (List.mem_map.mpr ⟨pc, hpc, hlow.symm⟩)
  · decide

/-- Closed instance of C2 at preference ["chinese"] and a "Chinese" record. -/
theorem claim_C2_witness :
    (⟨["chinese"], [], []⟩ : CuisinePreferences).cuisines ≠ [] ∧
      (⟨some "Chinese", none, none, none, true⟩ : MenuRecord) ∈
        TestPy.cuisineStage ⟨["chinese"], [], []⟩
          [⟨some "Chinese", none, none, none, true⟩] := by
  have h := claim_C2_cuisine_stage_case_insensitive
    [⟨some "Chinese", none, none, none, true⟩] ⟨["chinese"], [], []⟩ (by decide)
  exact ⟨by decide, (h.1 _).mpr ⟨by decide, "Chinese", rfl, "chinese", by decide, by decide⟩⟩

/-- C3: for any preference object with all three fields empty, both pipeline
variants return exactly the available input records in order; availability is
enforced for every preference object; and an empty preference field never
excludes a record (each stage with an empty field is the identity). -/
theorem claim_C3_empty_preferences_availability_only
    (p : CuisinePreferences) (df : List MenuRecord)
    (hc : p.cuisines = []) (hd : p.dietary_restrictions = [])
    (ha : p.allergens_to_avoid = []) :
    TestPy.filter_by_cuisine_preferences p df = df.filter (fun r => r.is_available) ∧
    FeatureCuisine.filter_by_cuisine_preferences p df = df.filter (fun r => r.is_available) ∧
    (∀ q : CuisinePreferences, ∀ r ∈ TestPy.filter_by_cuisine_preferences q df,
      r.is_available = true) ∧
    (∀ q : CuisinePreferences, ∀ r ∈ FeatureCuisine.filter_by_cuisine_preferences q df,
      r.is_available = true) ∧
    (∀ (q : CuisinePreferences) (l : List MenuRecord), q.cuisines = [] →
      TestPy.cuisineStage q l = l ∧ FeatureCuisine.cuisineStage q l = l) ∧
    (∀ (q : CuisinePreferences) (l : List MenuRecord), q.dietary_restrictions = [] →
      TestPy.vegStage q l = l ∧ TestPy.halalStage q l = l ∧
        FeatureCuisine.vegStage q l = l ∧ FeatureCuisine.halalStage q l = l) ∧
    (∀ l : List MenuRecord, allergenStage [] l = l) := by
  refine ⟨?_, ?_, ?_, ?_, ?_, ?_, ?_⟩
  · rw [TestPy.pipeline_eq]
    exact List.filter_congr (fun r _ => by simp [TestPy.keepPred, hc, hd, ha])
  · rw [FeatureCuisine.fc_pipeline_eq]
    exact List.filter_congr (fun r _ => by simp [FeatureCuisine.keepPred, hc, hd, ha])
  · intro q r hr
    rw [TestPy.pipeline_eq] at hr
    have h2 := (List.mem_filter.mp hr).2
    simp [TestPy.keepPred] at h2
    exact h2.1
  · intro q r hr
    rw [FeatureCuisine.fc_pipeline_eq] at hr
    have h2 := (List.mem_filter.mp hr).2
    simp [FeatureCuisine.keepPred] at h2
    exact h2.1
  · intro q l hq
    constructor <;> simp [TestPy.cuisineStage, FeatureCuisine.cuisineStage, hq]
  · intro q l hq
    refine ⟨?_, ?_, ?_, ?_⟩ <;>
      simp [TestPy.vegStage, TestPy.halalStage, FeatureCuisine.vegStage,
        FeatureCuisine.halalStage, hq]
  · intro l
    simp [allergenStage]

/-- Closed instance of C3 at the all-empty preference object and a two-record
set, one available and one not. -/
theorem claim_C3_witness :
    TestPy.filter_by_cuisine_preferences ⟨[], [], []⟩
        [⟨none, none, none, none, true⟩, ⟨none, none, none, none, false⟩] =
      [⟨none, none, none, none, true⟩] := by
  have h := claim_C3_empty_preferences_availability_only ⟨[], [], []⟩
    [⟨none, none, none, none, true⟩, ⟨none, none, none, none, false⟩] rfl rfl rfl
  rw [h.1]
  decide

theorem rtoksMatchPrefix_eq (ps : List Char) :
    ∀ xs : List Char,
      rtoksMatchPrefix (ps.map (fun c => RTok.lit c.toLower)) xs =
        (ps.map Char.toLower).isPrefixOf (xs.map Char.toLower) := by
  induction ps with
  | nil =>
    intro xs
    cases xs <;> rfl
  | cons p ps ih =>
    intro xs
    cases xs with
    | nil => rfl
    | cons x xs =>
      simp only [List.map_cons, rtoksMatchPrefix, rtokMatchesChar, List.isPrefixOf, ih]

theorem reSearchAux_eq (ps : List Char) :
    ∀ xs : List Char,
      reSearchAux (ps.map (fun c => RTok.lit c.toLower)) xs =
        subAux (ps.map Char.toLower) (xs.map Char.toLower) := by
  intro xs
  induction xs with
  | nil => cases ps <;> rfl
  | cons x xs ih =>
    simp only [List.map_cons, reSearchAux, subAux, ih]
    rw [show rtoksMatchPrefix (ps.map (fun c => RTok.lit c.toLower)) (x :: xs) =
        (ps.map Char.toLower).isPrefixOf ((x :: xs).map Char.toLower) from
      rtoksMatchPrefix_eq ps (x :: xs)]
    simp only [List.map_cons]

theorem parseSimplePat_literal (pat : String)
    (h : ∀ c ∈ pat.data, isLiteralChar c = true) :
    parseSimplePat pat = some (pat.data.map (fun c => RTok.lit c.toLower)) := by
  unfold parseSimplePat
  have hgen : ∀ l : List Char, (∀ c ∈ l, isLiteralChar c = true) →
      traverseOpt
        (fun c => if c = '.' then some RTok.dot
          else if isLiteralChar c then some (RTok.lit c.toLower) else none) l =
        some (l.map (fun c => RTok.lit c.toLower)) := by
    intro l
    induction l with
    | nil =>
      intro _
      rfl
    | cons c cs ih =>
      intro h2
      have hc := h2 c (List.mem_cons_self _ _)
      have hdot : ¬(c = '.') := by
        intro he
        subst he
        simp [isLiteralChar, pyReSpecial] at hc
      simp only [traverseOpt, if_neg hdot, if_pos hc,
        ih (fun c2 hc2 => h2 c2 (List.mem_cons_of_mem _ hc2)), List.map_cons]
  exact hgen pat.data h

theorem allergenFilterRe_literal (a : String) (l : List MenuRecord)
    (h : ∀ c ∈ a.data, isLiteralChar c = true) :
    allergenFilterRe a l = some (l.filter (fun r => !(allergenMatches a r))) := by
  unfold allergenFilterRe
  rw [parseSimplePat_literal a h]
  simp only [Option.map_some']
  congr 1
  apply List.filter_congr
  intro r _
  congr 1
  cases hr : r.allergens with
  | none => simp [allergenMatches, hr]
  | some s =>
    simp only [allergenMatches, hr]
    rw [reSearchAux_eq]
    simp [containsSubCI, lowerStr]

theorem foldl_bind_literal :
    ∀ (as : List String) (df : List MenuRecord),
      (∀ a ∈ as, ∀ c ∈ a.data, isLiteralChar c = true) →
      as.foldl (fun acc a => acc.bind (allergenFilterRe a)) (some df) =
        some (as.foldl (fun acc a => acc.filter (fun r => !(allergenMatches a r))) df) := by
  intro as
  induction as with
  | nil =>
    intro df _
    rfl
  | cons a as ih =>
    intro df h
    simp only [List.foldl_cons, Option.some_bind]
    rw [allergenFilterRe_literal a df (h a (List.mem_cons_self _ _))]
    exact ih _ (fun a2 ha2 => h a2 (List.mem_cons_of_mem _ ha2))

theorem allergenStageRe_literal (avoid : List String) (df : List MenuRecord)
    (h : ∀ a ∈ avoid, ∀ c ∈ a.data, isLiteralChar c = true) :
    allergenStageRe avoid df = some (allergenStage avoid df) := by
  unfold allergenStageRe allergenStage
  by_cases he : avoid.isEmpty
  · rw [if_pos he, if_pos he]
  · rw [if_neg he, if_neg he]
    exact foldl_bind_literal avoid df h

/-- C4 counterexample: with the source's `regex=True` default, avoiding the
token "." drops the "Peanuts, Dairy" record, because the regex `.` matches
any character, although "." does not occur in the text as a case-insensitive
substring (the literal reading keeps the record, as the literal stage shows);
and the token "(" does not even compile (`re.error`), leaving the modeled
subset entirely.  So the claimed drop-iff-substring equivalence fails for
some avoid lists. -/
theorem claim_C4_counterexample :
    allergenStageRe ["."] [⟨none, none, none, some "Peanuts, Dairy", true⟩] =
        some [] ∧
      containsSubCI "Peanuts, Dairy" "." = false ∧
      allergenStage ["."] [⟨none, none, none, some "Peanuts, Dairy", true⟩] =
        [⟨none, none, none, some "Peanuts, Dairy", true⟩] ∧
      allergenStageRe ["("] [⟨none, none, none, some "Peanuts, Dairy", true⟩] =
        none := by
  refine ⟨by decide, by decide, by decide, by decide⟩

/-- C4 (amended): for every record set and every non-empty avoid list whose
tokens contain no Python regex metacharacters — the only form the allergen
data uses — the allergen stage (whose regex reading then coincides with the
literal stage) drops a record iff some avoided token occurs as a
case-insensitive substring of the record's allergen text; a record with a
missing allergen field always survives; allergen text "Peanuts, Dairy"
matches avoided "nuts" but not "shellfish".  Metacharacter tokens instead
follow Python regex semantics ("." matches any character; "(" raises). -/
theorem claim_C4_allergen_stage_literal_tokens
    (df : List MenuRecord) (avoid : List String) (h : avoid ≠ [])
    (hlit : ∀ a ∈ avoid, ∀ c ∈ a.data, isLiteralChar c = true) :
    allergenStageRe avoid df = some (allergenStage avoid df) ∧
    (allergenStage avoid df =
        df.filter (fun r => avoid.all (fun a => !(allergenMatches a r)))) ∧
    (∀ r ∈ df, (r ∈ allergenStage avoid df ↔ ¬ ∃ a ∈ avoid, allergenMatches a r = true)) ∧
    (∀ r ∈ df, r.allergens = none → r ∈ allergenStage avoid df) ∧
    (∀ s a : String, allergenMatches a ⟨none, none, none, some s, true⟩ = containsSubCI s a) ∧
    allergenMatches "nuts" ⟨none, none, none, some "Peanuts, Dairy", true⟩ = true ∧
    allergenMatches "shellfish" ⟨none, none, none, some "Peanuts, Dairy", true⟩ = false := by
  refine ⟨allergenStageRe_literal avoid df hlit, allergenStage_eq avoid df, ?_, ?_,
    fun s a => rfl, by decide, by decide⟩
  · intro r hr
    rw [allergenStage_eq, List.mem_filter]
    simp [hr, List.all_eq_true]
  · intro r hr hnone
    rw [allergenStage_eq, List.mem_filter]
    refine ⟨hr, ?_⟩
    simp [List.all_eq_true, allergenMatches, hnone]

/-- Closed instance of the amended C4: "nuts" is a metacharacter-free token,
the regex and literal stages agree on it, and avoiding it drops the
"Peanuts, Dairy" record. -/
theorem claim_C4_witness :
    (["nuts"] : List String) ≠ [] ∧
      allergenStageRe ["nuts"] [⟨none, none, none, some "Peanuts, Dairy", true⟩] =
        some [] := by
  have h := claim_C4_allergen_stage_literal_tokens
    [⟨none, none, none, some "Peanuts, Dairy", true⟩] ["nuts"] (by decide) (by decide)
  refine ⟨by decide, ?_⟩
  rw [h.1, h.2.1]
  decide

/-- C7: in the coherent `src/test.py` pipeline the vegetarian stage is applied
exactly when "vegetarian" occurs among the (lower-cased) dietary restrictions,
and keeps a record iff its vegetarian indicator lower-cases to "yes" (so
"Yes", "YES", "yes" all pass); the halal stage behaves identically. -/
theorem claim_C7_dietary_stages_case_insensitive
    (p : CuisinePreferences) (df : List MenuRecord) :
    ("vegetarian" ∈ p.dietary_restrictions →
        (p.dietary_restrictions.map lowerStr).contains "vegetarian" = true) ∧
    ((p.dietary_restrictions.map lowerStr).contains "vegetarian" = true →
        TestPy.vegStage p df = df.filter TestPy.vegPred) ∧
    ((p.dietary_restrictions.map lowerStr).contains "vegetarian" = false →
        TestPy.vegStage p df = df) ∧
    (∀ r : MenuRecord, TestPy.vegPred r = true ↔
        ∃ v, r.vegetarian = some v ∧ lowerStr v = "yes") ∧
    ("halal" ∈ p.dietary_restrictions →
        (p.dietary_restrictions.map lowerStr).contains "halal" = true) ∧
    ((p.dietary_restrictions.map lowerStr).contains "halal" = true →
        TestPy.halalStage p df = df.filter TestPy.halalPred) ∧
    ((p.dietary_restrictions.map lowerStr).contains "halal" = false →
        TestPy.halalStage p df = df) ∧
    (∀ r : MenuRecord, TestPy.halalPred r = true ↔
        ∃ v, r.halal = some v ∧ lowerStr v = "yes") ∧
    TestPy.vegPred ⟨none, some "Yes", none, none, true⟩ = true ∧
    TestPy.vegPred ⟨none, some "YES", none, none, true⟩ = true ∧
    TestPy.vegPred ⟨none, some "yes", none, none, true⟩ = true ∧
    TestPy.vegPred ⟨none, some "No", none, none, true⟩ = false := by
  refine ⟨?_, ?_, ?_, ?_, ?_, ?_, ?_, ?_, by decide, by decide, by decide, by decide⟩
  · intro hm
    exact List.elem_iff.mpr (List.mem_map.mpr ⟨"vegetarian", hm, by decide⟩)
  · intro hcont
    unfold TestPy.vegStage
    rw [if_pos hcont]
  · intro hcont
    have hne : ¬((p.dietary_restrictions.map lowerStr).contains "vegetarian" = true) := by
      rw [hcont]; exact Bool.false_ne_true
    unfold TestPy.vegStage
    rw [if_neg hne]
  · intro r
    cases hv : r.vegetarian with
    | none => simp [TestPy.vegPred, hv]
    | some v => simp [TestPy.vegPred, hv]
  · intro hm
    exact List.elem_iff.mpr (List.mem_map.mpr ⟨"halal", hm, by decide⟩)
  · intro hcont
    unfold TestPy.halalStage
    rw [if_pos hcont]
  · intro hcont
    have hne : ¬((p.dietary_restrictions.map lowerStr).contains "halal" = true) := by
      rw [hcont]; exact Bool.false_ne_true
    unfold TestPy.halalStage
    rw [if_neg hne]
  · intro r
    cases hv : r.halal with
    | none => simp [TestPy.halalPred, hv]
    | some v => simp [TestPy.halalPred, hv]

/-- Closed instance of C7: restriction "Vegetarian" applies the stage, which
keeps the "YES" record and drops the "No" record. -/
theorem claim_C7_witness :
    TestPy.vegStage ⟨[], ["Vegetarian"], []⟩
        [⟨none, some "YES", none, none, true⟩, ⟨none, some "No", none, none, true⟩] =
      [⟨none, some "YES", none, none, true⟩] := by
  have h := claim_C7_dietary_stages_case_insensitive ⟨[], ["Vegetarian"], []⟩
    [⟨none, some "YES", none, none, true⟩, ⟨none, some "No", none, none, true⟩]
  rw [h.2.1 (by decide)]
  decide

/-- C8: filtering is idempotent — applying either pipeline variant twice with
the same preference object equals applying it once. -/
theorem claim_C8_filter_idempotent (p : CuisinePreferences) (df : List MenuRecord) :
    TestPy.filter_by_cuisine_preferences p (TestPy.filter_by_cuisine_preferences p df) =
        TestPy.filter_by_cuisine_preferences p df ∧
      FeatureCuisine.filter_by_cuisine_preferences p
          (FeatureCuisine.filter_by_cuisine_preferences p df) =
        FeatureCuisine.filter_by_cuisine_preferences p df := by
  constructor
  · rw [TestPy.pipeline_eq, TestPy.pipeline_eq]
    exact filter_idem _ _
  · rw [FeatureCuisine.fc_pipeline_eq, FeatureCuisine.fc_pipeline_eq]
    exact filter_idem _ _

/-! ### Reorder lemmas and claims -/

theorem traverseOpt_eq_none_iff (f : α → Option β) (l : List α) :
    traverseOpt f l = none ↔ ∃ x ∈ l, f x = none := by
  induction l with
  | nil => simp [traverseOpt]
  | cons x xs ih =>
    rcases hf : f x with _ | y
    · rcases ht : traverseOpt f xs with _ | ys <;>
        · simp only [traverseOpt, hf, ht]
          exact iff_of_true trivial ⟨x, List.mem_cons_self _ _, hf⟩
    · rcases ht : traverseOpt f xs with _ | ys
      · simp only [traverseOpt, hf, ht]
        refine iff_of_true trivial ?_
        rcases ih.mp ht with ⟨z, hz, hfz⟩
        exact ⟨z, List.mem_cons_of_mem _ hz, hfz⟩
      · simp only [traverseOpt, hf, ht]
        constructor
        · intro hcontra
          exact absurd hcontra (by simp)
        · rintro ⟨z, hz, hfz⟩
          rcases List.mem_cons.mp hz with rfl | hz2
          · rw [hf] at hfz; exact absurd hfz (by simp)
          · have := ih.mpr ⟨z, hz2, hfz⟩
            rw [this] at ht; exact absurd ht (by simp)

theorem traverseOpt_get? (f : α → Option β) :
    ∀ (l : List α) (ys : List β), traverseOpt f l = some ys →
      ∀ (k : ℕ) (x : α), l.get? k = some x → ys.get? k = f x := by
  intro l
  induction l with
  | nil =>
    intro ys _ k x hk
    simp at hk
  | cons a t ih =>
    intro ys h k x hk
    rcases hf : f a with _ | y
    · rcases ht : traverseOpt f t with _ | zs <;>
        simp [traverseOpt, hf, ht] at h
    · rcases ht : traverseOpt f t with _ | zs
      · simp [traverseOpt, hf, ht] at h
      · simp only [traverseOpt, hf, ht, Option.some.injEq] at h
        subst h
        cases k with
        | zero =>
          simp only [List.get?] at hk
          rw [Option.some.injEq] at hk
          subst hk
          simp [hf]
        | succ k =>
          simp only [List.get?] at hk ⊢
          exact ih zs ht k x hk

/-- C1 counterexample: for the 3-stop itinerary and the reorder input
[1,1,3] — the spec's own example of a non-permutation — the edit loop accepts
the input (the step does not fail) and produces a changed itinerary with the
first stop duplicated, instead of failing and leaving the route unchanged. -/
theorem claim_C1_counterexample :
    reorderStep [10, 20, 30] ([1, 1, 3] : List ℤ) = some [10, 10, 30] ∧
      reorderStep [10, 20, 30] ([1, 1, 3] : List ℤ) ≠ none ∧
      editStep [10, 20, 30] ([1, 1, 3] : List ℤ) ≠ [10, 20, 30] := by
  refine ⟨by decide, by decide, by decide⟩

/-- C1 (amended): the reorder step fails — leaving the itinerary unchanged —
exactly when the entered order has the wrong length or some entry falls
outside Python's index range for the itinerary after the 1-based shift
(`pyGet` returns `none`); correct-length inputs whose entries are all in
range are accepted even when they repeat positions. -/
theorem claim_C1_reorder_fails_only_on_length_or_range
    (itin : List α) (order : List ℤ) :
    (reorderStep itin order = none ↔
        order.length ≠ itin.length ∨ ∃ i ∈ order, pyGet itin (i - 1) = none) ∧
      (reorderStep itin order = none → editStep itin order = itin) := by
  constructor
  · simp only [reorderStep]
    by_cases hl : (order.map (fun x => x - 1)).length = itin.length
    · rw [if_pos hl, traverseOpt_eq_none_iff]
      rw [List.length_map] at hl
      constructor
      · rintro ⟨x, hx, hfx⟩
        rcases List.mem_map.mp hx with ⟨i, hi, rfl⟩
        exact Or.inr ⟨i, hi, hfx⟩
      · rintro (hcontra | ⟨i, hi, hfi⟩)
        · exact absurd hl hcontra
        · exact ⟨i - 1, List.mem_map.mpr ⟨i, hi, rfl⟩, hfi⟩
    · rw [if_neg hl]
      rw [List.length_map] at hl
      exact iff_of_true rfl (Or.inl hl)
  · intro h
    simp only [editStep, h, Option.getD]

/-- Closed instance of the amended C1: a wrong-length input fails and the
edit loop keeps the itinerary. -/
theorem claim_C1_amended_witness :
    reorderStep [10, 20, 30] ([1, 2] : List ℤ) = none ∧
      editStep [10, 20, 30] ([1, 2] : List ℤ) = [10, 20, 30] := by
  have h := claim_C1_reorder_fails_only_on_length_or_range [10, 20, 30] ([1, 2] : List ℤ)
  have hn := h.1.mpr (Or.inl (by decide))
  exact ⟨hn, h.2 hn⟩

/-- C10: an accepted reorder whose entered order contains the number 0
resolves that position to the last stop of the previous itinerary (Python
index -1 after the 1-based shift); in particular "0,1,2" on a 3-stop route
yields [stop3, stop1, stop2]. -/
theorem claim_C10_zero_resolves_to_last_stop
    (itin : List α) (order : List ℤ) (res : List α) (k : ℕ)
    (hres : reorderStep itin order = some res)
    (hk : order.get? k = some 0) :
    itin ≠ [] ∧ res.get? k = itin.get? (itin.length - 1) ∧
      reorderStep [10, 20, 30] ([0, 1, 2] : List ℤ) = some ([30, 10, 20] : List ℕ) := by
  simp only [reorderStep] at hres
  by_cases hl : (order.map (fun x => x - 1)).length = itin.length
  · rw [if_pos hl] at hres
    rw [List.length_map] at hl
    have hk_lt : k < order.length := by
      rcases List.get?_eq_some.mp hk with ⟨h1, _⟩
      exact h1
    have hne : itin ≠ [] := by
      intro hcontra
      rw [hcontra] at hl
      simp only [List.length_nil] at hl
      omega
    have hidx : (order.map (fun x => x - 1)).get? k = some (-1) := by
      rw [List.get?_map, hk]
      rfl
    have hval := traverseOpt_get? (pyGet itin) (order.map (fun x => x - 1)) res hres k (-1) hidx
    refine ⟨hne, ?_, by decide⟩
    rw [hval]
    simp only [pyGet]
    rw [if_neg (by omega)]
    rw [if_pos]
    · norm_num
    · have : 0 < itin.length := List.length_pos.mpr hne
      omega
  · rw [if_neg hl] at hres
    exact absurd hres (by simp)

/-- Closed instance of C10 at the 3-stop route and input "0,1,2". -/
theorem claim_C10_witness :
    ([30, 10, 20] : List ℕ).get? 0 = ([10, 20, 30] : List ℕ).get? (3 - 1) := by
  have h := claim_C10_zero_resolves_to_last_stop [10, 20, 30] ([0, 1, 2] : List ℤ)
    [30, 10, 20] 0 (by decide) rfl
  simpa using h.2.1

/-! ### Route-planner claims -/

theorem cons_getElem_eraseIdx_perm :
    ∀ (l : List α) (i : ℕ) (hi : i < l.length),
      (l[i] :: l.eraseIdx i).Perm l := by
  intro l
  induction l with
  | nil =>
    intro i hi
    simp at hi
  | cons a t ih =>
    intro i hi
    cases i with
    | zero => simp
    | succ i =>
      have hit : i < t.length := by simpa using hi
      rw [List.getElem_cons_succ, List.eraseIdx_cons_succ]
      exact (List.Perm.swap a (t[i]) (t.eraseIdx i)).trans ((ih i hit).cons a)

theorem routeAux_perm (dist : Coord → Coord → ℚ) (coordOf : α → Coord) :
    ∀ (fuel : ℕ) (cur : Coord) (rem : List α), rem.length ≤ fuel →
      (routeAux dist coordOf fuel cur rem).Perm rem := by
  intro fuel
  induction fuel with
  | zero =>
    intro cur rem h
    have hnil : rem = [] := List.length_eq_zero.mp (Nat.le_zero.mp h)
    subst hnil
    simp [routeAux]
  | succ fuel ih =>
    intro cur rem h
    cases rem with
    | nil => simp [routeAux]
    | cons r0 rest =>
      simp only [routeAux]
      have hmapne : ((r0 :: rest).map (fun r => dist cur (coordOf r))) ≠ [] := by simp
      have hi : idxmin ((r0 :: rest).map (fun r => dist cur (coordOf r))) <
          (r0 :: rest).length := by
        have h2 := idxmin_lt_length hmapne
        simpa using h2
      have hgetD : (r0 :: rest).getD
            (idxmin ((r0 :: rest).map (fun r => dist cur (coordOf r)))) r0 =
          (r0 :: rest)[idxmin ((r0 :: rest).map (fun r => dist cur (coordOf r)))] := by
        rw [List.getD_eq_getElem?_getD, List.getElem?_eq_getElem hi]
        rfl
      rw [hgetD]
      have hlen : ((r0 :: rest).eraseIdx
            (idxmin ((r0 :: rest).map (fun r => dist cur (coordOf r))))).length ≤ fuel := by
        rw [List.length_eraseIdx_of_lt hi]
        have h3 : (r0 :: rest).length = rest.length + 1 := rfl
        rw [h3] at h ⊢
        omega
      exact ((ih _ _ hlen).cons _).trans (cons_getElem_eraseIdx_perm _ _ hi)

/-- C9: for every distance function, coordinate projection, start coordinate
and list of input locations, the route built by `calculate_best_route` is a
permutation of the input: same length, every input row exactly once, nothing
added or lost. -/
theorem claim_C9_route_is_permutation (dist : Coord → Coord → ℚ) (coordOf : α → Coord)
    (start : Coord) (hcs : List α) :
    (calculate_best_route dist coordOf start hcs).Perm hcs ∧
      (calculate_best_route dist coordOf start hcs).length = hcs.length := by
  have h := routeAux_perm dist coordOf hcs.length start hcs (le_refl _)
  exact ⟨h, h.length_eq⟩

theorem find?_eq_getElem_findIdx (p : α → Bool) :
    ∀ (l : List α) (h : l.findIdx p < l.length),
      l.find? p = some (l[l.findIdx p]) := by
  intro l
  induction l with
  | nil =>
    intro h
    simp at h
  | cons a t ih =>
    intro h
    by_cases hp : p a
    · have hfi : (a :: t).findIdx p = 0 := by simp [List.findIdx_cons, hp]
      rw [List.find?_cons_of_pos _ hp]
      congr 1
      simp only [hfi, List.getElem_cons_zero]
    · have hfi : (a :: t).findIdx p = t.findIdx p + 1 := by simp [List.findIdx_cons, hp]
      rw [List.find?_cons_of_neg _ hp]
      have ht : t.findIdx p < t.length := by
        rw [hfi] at h
        simpa using h
      rw [ih ht]
      congr 1
      simp only [hfi, List.getElem_cons_succ]

theorem specPick_eq (d : α → ℚ) (rem : List α) (hne : rem ≠ [])
    (hi : idxmin (rem.map d) < rem.length) :
    specPick d rem = some (rem[idxmin (rem.map d)]) := by
  have hmapne : rem.map d ≠ [] := by simpa using hne
  have him : idxmin (rem.map d) < (rem.map d).length := by simpa using hi
  have hattain : (rem.map d)[idxmin (rem.map d)] = listMin (rem.map d) :=
    idxmin_attains hmapne him
  have hkey : d (rem[idxmin (rem.map d)]) = listMin (rem.map d) := by
    rw [← hattain, List.getElem_map]
  have hq : rem.findIdx (fun r => rem.all (fun r2 => decide (d r ≤ d r2))) =
      idxmin (rem.map d) := by
    apply (List.findIdx_eq hi).mpr
    constructor
    · simp only [List.all_eq_true, decide_eq_true_eq]
      intro r2 hr2
      rw [hkey]
      exact listMin_le _ (List.mem_map.mpr ⟨r2, hr2, rfl⟩)
    · intro j hj
      have hjl : j < rem.length := Nat.lt_trans hj hi
      have hjm : j < (rem.map d).length := by simpa using hjl
      rw [Bool.eq_false_iff]
      intro hq2
      simp only [List.all_eq_true, decide_eq_true_eq] at hq2
      have hle := hq2 (rem[idxmin (rem.map d)]) (rem.getElem_mem hi)
      have hfirst := idxmin_first j hj hjm
      rw [List.getElem_map] at hfirst
      rw [hkey] at hle
      exact absurd hle (not_le_of_lt hfirst)
  have hfind : rem.findIdx (fun r => rem.all (fun r2 => decide (d r ≤ d r2))) <
      rem.length := by
    rw [hq]
    exact hi
  unfold specPick
  rw [find?_eq_getElem_findIdx _ rem hfind]
  congr 1
  simp only [hq]

theorem erase_getElem_eq_eraseIdx [DecidableEq α] :
    ∀ (l : List α) (i : ℕ) (hi : i < l.length),
      (∀ j (hj : j < i), l[j] ≠ l[i]) →
      l.erase (l[i]) = l.eraseIdx i := by
  intro l
  induction l with
  | nil =>
    intro i hi
    simp at hi
  | cons a t ih =>
    intro i hi hfirst
    cases i with
    | zero => simp
    | succ i =>
      have hit : i < t.length := by simpa using hi
      have hne : ¬(a == t[i]) := by
        have h0 := hfirst 0 (Nat.succ_pos i)
        simpa using h0
      rw [List.getElem_cons_succ, List.erase_cons_tail hne, List.eraseIdx_cons_succ]
      congr 1
      apply ih i hit
      intro j hj
      have hj1 := hfirst (j + 1) (Nat.succ_lt_succ hj)
      simpa using hj1

theorem routeAux_eq_greedySpec [DecidableEq α] (dist : Coord → Coord → ℚ)
    (coordOf : α → Coord) :
    ∀ (fuel : ℕ) (cur : Coord) (rem : List α),
      routeAux dist coordOf fuel cur rem = greedySpec dist coordOf fuel cur rem := by
  intro fuel
  induction fuel with
  | zero =>
    intro cur rem
    cases rem <;> rfl
  | succ fuel ih =>
    intro cur rem
    cases rem with
    | nil => simp [routeAux, greedySpec, specPick]
    | cons r0 rest =>
      have hne : (r0 :: rest) ≠ [] := by simp
      have hmapne : ((r0 :: rest).map (fun r => dist cur (coordOf r))) ≠ [] := by simp
      have hi : idxmin ((r0 :: rest).map (fun r => dist cur (coordOf r))) <
          (r0 :: rest).length := by
        have h2 := idxmin_lt_length hmapne
        simpa using h2
      have hpick := specPick_eq (fun r => dist cur (coordOf r)) (r0 :: rest) hne hi
      have him : idxmin ((r0 :: rest).map (fun r => dist cur (coordOf r))) <
          ((r0 :: rest).map (fun r => dist cur (coordOf r))).length := by
        simpa using hi
      have hfirstne : ∀ j (hj : j <
            idxmin ((r0 :: rest).map (fun r => dist cur (coordOf r)))),
          (r0 :: rest)[j] ≠
            (r0 :: rest)[idxmin ((r0 :: rest).map (fun r => dist cur (coordOf r)))] := by
        intro j hj heq
        have hjl : j < (r0 :: rest).length := Nat.lt_trans hj hi
        have hjm : j < ((r0 :: rest).map (fun r => dist cur (coordOf r))).length := by
          simpa using hjl
        have hfirst := idxmin_first j hj hjm
        have hattain := idxmin_attains hmapne him
        rw [List.getElem_map] at hfirst
        rw [List.getElem_map] at hattain
        rw [heq, hattain] at hfirst
        exact lt_irrefl _ hfirst
      have hgetD : (r0 :: rest).getD
            (idxmin ((r0 :: rest).map (fun r => dist cur (coordOf r)))) r0 =
          (r0 :: rest)[idxmin ((r0 :: rest).map (fun r => dist cur (coordOf r)))] := by
        rw [List.getD_eq_getElem?_getD, List.getElem?_eq_getElem hi]
        rfl
      simp only [routeAux, greedySpec, hpick, hgetD]
      rw [erase_getElem_eq_eraseIdx (r0 :: rest) _ hi hfirstne]
      rw [ih]

/-- C5: `calculate_best_route` implements the specification's greedy
nearest-neighbour construction — repeatedly append the remaining location at
minimum distance from the current position, ties broken by the location
encountered first in iteration order, and move there — for every distance
function (the geodesic enters as the external distance collaborator); and for
any distance function ordered like the geodesic on the spec's example (start
(0,0), candidates (0,1),(0,5),(0,3)) the route is [(0,1),(0,3),(0,5)]. -/
theorem claim_C5_route_planner_greedy {α : Type} [DecidableEq α]
    (dist : Coord → Coord → ℚ) (coordOf : α → Coord) (start : Coord) (hcs : List α) :
    calculate_best_route dist coordOf start hcs =
        greedySpec dist coordOf hcs.length start hcs ∧
      ∀ d2 : Coord → Coord → ℚ,
        d2 (0, 0) (0, 1) < d2 (0, 0) (0, 3) →
        d2 (0, 0) (0, 3) < d2 (0, 0) (0, 5) →
        d2 (0, 1) (0, 3) < d2 (0, 1) (0, 5) →
        calculate_best_route d2 (fun c : Coord => c) (0, 0) [(0, 1), (0, 5), (0, 3)] =
          [(0, 1), (0, 3), (0, 5)] := by
  constructor
  · exact routeAux_eq_greedySpec dist coordOf hcs.length start hcs
  · intro d2 h13 h35 h1y
    have h15 : d2 (0, 0) (0, 1) < d2 (0, 0) (0, 5) := lt_trans h13 h35
    have hl1 : listMin [d2 (0, 0) (0, 1), d2 (0, 0) (0, 5), d2 (0, 0) (0, 3)] =
        d2 (0, 0) (0, 1) := by
      show min (min (d2 (0, 0) (0, 1)) (d2 (0, 0) (0, 5))) (d2 (0, 0) (0, 3)) = _
      rw [min_eq_left (le_of_lt h15), min_eq_left (le_of_lt h13)]
    have e1 : idxmin [d2 (0, 0) (0, 1), d2 (0, 0) (0, 5), d2 (0, 0) (0, 3)] = 0 := by
      unfold idxmin
      rw [hl1]
      simp [List.findIdx_cons]
    have hl2 : listMin [d2 (0, 1) (0, 5), d2 (0, 1) (0, 3)] = d2 (0, 1) (0, 3) := by
      show min (d2 (0, 1) (0, 5)) (d2 (0, 1) (0, 3)) = _
      rw [min_eq_right (le_of_lt h1y)]
    have e2 : idxmin [d2 (0, 1) (0, 5), d2 (0, 1) (0, 3)] = 1 := by
      unfold idxmin
      rw [hl2]
      have hne2 : (d2 (0, 1) (0, 5) == d2 (0, 1) (0, 3)) = false := by
        simp only [beq_eq_false_iff_ne, ne_eq]
        exact ne_of_gt h1y
      simp [List.findIdx_cons, hne2]
    have e3 : ∀ q : ℚ, idxmin [q] = 0 := by
      intro q
      simp [idxmin, listMin, List.findIdx_cons]
    unfold calculate_best_route
    simp only [List.length_cons, List.length_nil]
    simp only [routeAux, List.map_cons, List.map_nil, e1, e2, e3,
      List.getD_cons_zero, List.getD_cons_succ, List.eraseIdx_cons_zero,
      List.eraseIdx_cons_succ]

/-- Closed instance of C5's example route under the concrete witness distance
table, whose ordering on the involved pairs matches the geodesic's. -/
theorem claim_C5_witness :
    (witnessDist (0, 0) (0, 1) < witnessDist (0, 0) (0, 3) ∧
        witnessDist (0, 0) (0, 3) < witnessDist (0, 0) (0, 5) ∧
        witnessDist (0, 1) (0, 3) < witnessDist (0, 1) (0, 5)) ∧
      calculate_best_route witnessDist (fun c : Coord => c) (0, 0)
          [(0, 1), (0, 5), (0, 3)] = [(0, 1), (0, 3), (0, 5)] := by
  refine ⟨⟨by decide, by decide, by decide⟩, ?_⟩
  exact (claim_C5_route_planner_greedy (α := Coord) witnessDist (fun c : Coord => c)
    (0, 0) []).2 witnessDist (by decide) (by decide) (by decide)

/-! ### Join-layer claims -/

theorem mem_menu_stalls (menu : List MenuItem) (stalls : List Stall)
    (m : MenuItem) (s : Stall) :
    (m, s) ∈ menu_stalls menu stalls ↔
      m ∈ menu ∧ s ∈ stalls ∧ s.stall_id = m.stall_id := by
  simp only [menu_stalls, List.mem_flatMap, List.mem_map, List.mem_filter,
    beq_iff_eq, Prod.mk.injEq]
  constructor
  · rintro ⟨m2, hm2, s2, ⟨hs2, hid⟩, hm, hs⟩
    subst hm
    subst hs
    exact ⟨hm2, hs2, hid⟩
  · rintro ⟨hm, hs, hid⟩
    exact ⟨m, hm, s, ⟨hs, by rw [hid]⟩, rfl, rfl⟩

theorem mem_full_data (menu : List MenuItem) (stalls : List Stall)
    (centers : List HawkerCenter) (m : MenuItem) (s : Stall) (c : HawkerCenter) :
    (m, s, c) ∈ full_data menu stalls centers ↔
      m ∈ menu ∧ s ∈ stalls ∧ s.stall_id = m.stall_id ∧
        c ∈ centers ∧ c.center_id = s.hawker_center_id := by
  constructor
  · intro hmem
    rcases List.mem_flatMap.mp hmem with ⟨p, hp, hmap⟩
    rcases List.mem_map.mp hmap with ⟨c2, hc2f, heq⟩
    rcases List.mem_filter.mp hc2f with ⟨hc2, hcid⟩
    obtain ⟨m2, s2⟩ := p
    cases heq
    rcases (mem_menu_stalls menu stalls m2 s2).mp hp with ⟨hm2, hs2, hid⟩
    exact ⟨hm2, hs2, hid, hc2, by simpa using hcid⟩
  · rintro ⟨hm, hs, hid, hc, hcid⟩
    refine List.mem_flatMap.mpr ⟨(m, s), (mem_menu_stalls menu stalls m s).mpr
      ⟨hm, hs, hid⟩, ?_⟩
    refine List.mem_map.mpr ⟨c, List.mem_filter.mpr ⟨hc, ?_⟩, rfl⟩
    simpa using hcid

/-- C6: the join of menu items with stalls and centers supports both modes.
The inner pipeline (`full_data` of `src/unnamed/part_000`) holds a row for a
menu item iff its stall resolves and that stall's center resolves, so
unresolved items are dropped; the left merge of `load_data` (`merged_df`)
retains every menu item and pairs an unmatched item with a NaN stall side;
and the spec's three-table LeftOuter join retains every menu item with NaN
stall/center fields when unmatched. -/
theorem claim_C6_join_modes (menu : List MenuItem) (stalls : List Stall)
    (centers : List HawkerCenter) :
    (∀ m : MenuItem,
        (∃ s c, (m, s, c) ∈ full_data menu stalls centers) ↔
          m ∈ menu ∧ ∃ s ∈ stalls, s.stall_id = m.stall_id ∧
            ∃ c ∈ centers, c.center_id = s.hawker_center_id) ∧
    (∀ m ∈ menu, ∃ os, (m, os) ∈ merged_df menu stalls) ∧
    (∀ m ∈ menu, (∀ s ∈ stalls, s.stall_id ≠ m.stall_id) →
        (m, none) ∈ merged_df menu stalls) ∧
    (∀ m ∈ menu, ∃ os oc, (m, os, oc) ∈ joinMenuStallCenterLeft menu stalls centers) ∧
    (∀ m ∈ menu, (∀ s ∈ stalls, s.stall_id ≠ m.stall_id) →
        (m, none, none) ∈ joinMenuStallCenterLeft menu stalls centers) := by
  have hretain : ∀ m ∈ menu, ∃ os, (m, os) ∈ merged_df menu stalls := by
    intro m hm
    rcases hms : stalls.filter (fun s => s.stall_id == m.stall_id) with _ | ⟨s0, tl⟩
    · refine ⟨none, List.mem_flatMap.mpr ⟨m, hm, ?_⟩⟩
      rw [hms]
      simp
    · refine ⟨some s0, List.mem_flatMap.mpr ⟨m, hm, ?_⟩⟩
      simp [hms]
  have hnone : ∀ m ∈ menu, (∀ s ∈ stalls, s.stall_id ≠ m.stall_id) →
      (m, none) ∈ merged_df menu stalls := by
    intro m hm hnomatch
    have hfil : stalls.filter (fun s => s.stall_id == m.stall_id) = [] :=
      List.filter_eq_nil_iff.mpr (fun s hs => by
        simp only [beq_iff_eq]
        exact fun he => hnomatch s hs (by simpa using he))
    refine List.mem_flatMap.mpr ⟨m, hm, ?_⟩
    rw [hfil]
    simp
  refine ⟨?_, hretain, hnone, ?_, ?_⟩
  · intro m
    constructor
    · rintro ⟨s, c, hmem⟩
      rcases (mem_full_data menu stalls centers m s c).mp hmem with
        ⟨hm, hs, hid, hc, hcid⟩
      exact ⟨hm, s, hs, hid, c, hc, hcid⟩
    · rintro ⟨hm, s, hs, hid, c, hc, hcid⟩
      exact ⟨s, c, (mem_full_data menu stalls centers m s c).mpr ⟨hm, hs, hid, hc, hcid⟩⟩
  · intro m hm
    rcases hretain m hm with ⟨os, hos⟩
    cases os with
    | none =>
      refine ⟨none, none, List.mem_flatMap.mpr ⟨(m, none), hos, ?_⟩⟩
      simp
    | some s =>
      rcases hcs : centers.filter (fun c => c.center_id == s.hawker_center_id) with
        _ | ⟨c0, tl⟩
      · refine ⟨some s, none, List.mem_flatMap.mpr ⟨(m, some s), hos, ?_⟩⟩
        simp [joinMenuStallCenterLeft, hcs]
      · refine ⟨some s, some c0, List.mem_flatMap.mpr ⟨(m, some s), hos, ?_⟩⟩
        simp [joinMenuStallCenterLeft, hcs]
  · intro m hm hnomatch
    refine List.mem_flatMap.mpr ⟨(m, none), hnone m hm hnomatch, ?_⟩
    simp

/-- Closed instance of C6: with one stall and one center, the inner join
keeps the resolvable menu item 1, and the left merge retains the orphan menu
item 9 with a NaN stall side. -/
theorem claim_C6_witness :
    (∃ s c, ((⟨1, "m1"⟩ : MenuItem), s, c) ∈
        full_data [⟨1, "m1"⟩, ⟨9, "m2"⟩] [⟨1, 7, "s1"⟩] [⟨7, "c1"⟩]) ∧
      ((⟨9, "m2"⟩ : MenuItem), (none : Option Stall)) ∈
        merged_df [⟨1, "m1"⟩, ⟨9, "m2"⟩] [⟨1, 7, "s1"⟩] := by
  have h := claim_C6_join_modes [⟨1, "m1"⟩, ⟨9, "m2"⟩] [⟨1, 7, "s1"⟩] [⟨7, "c1"⟩]
  constructor
  · exact (h.1 ⟨1, "m1"⟩).mpr
      ⟨by decide, ⟨1, 7, "s1"⟩, by decide, rfl, ⟨7, "c1"⟩, by decide, rfl⟩
  · exact h.2.2.1 ⟨9, "m2"⟩ (by decide) (by decide)

end TouristApp

